import Mathlib

set_option maxHeartbeats 1000000

/- Verification of the image-convert front end: a shallow embedding of
src/js/app.js, src/js/modules/ImageConverter.js and
src/js/modules/FileProcessor.js. JavaScript strings are modelled as lists
of characters, numbers as Nat / Int / Rat as the use requires, and the
asynchronous batch loops as trace-producing functions over an explicit
completion schedule. -/

namespace ImageConvert

/-- Conversion strategies available to ImageConverter.convertToFormat:
in-browser Canvas encoding or the remote HTTP API. -/
inductive Strategy
  | localBrowser
  | remoteServer
  deriving DecidableEq

/-- Dispatch of ImageConverter.convertToFormat: browser conversion for WebP
when the capability flag is set, otherwise the server API. -/
def convertToFormatStrategy (format : List Char) (webpSupported : Bool) : Strategy :=
  if format == "webp".toList && webpSupported then Strategy.localBrowser
  else Strategy.remoteServer

/-- JavaScript Number(x.toFixed(2)): the magnitude is rounded to two decimal
places with ties going away from zero, and the sign is kept. -/
def jsToFixed2 (x : ℚ) : ℚ :=
  if x < 0 then -((Int.floor (-x * 100 + 1 / 2) : ℚ) / 100)
  else (Int.floor (x * 100 + 1 / 2) : ℚ) / 100

/-- Size arithmetic of ImageConverter.convertToWebPInBrowser:
Number((((originalSize - convertedSize) / originalSize) * 100).toFixed(2)). -/
def reductionPercentage (originalSize convertedSize : ℚ) : ℚ :=
  jsToFixed2 ((originalSize - convertedSize) / originalSize * 100)

/-- Character class of the regex in ImageConverter.generateFileName:
anything other than a dot or a slash. -/
def isExtChar (c : Char) : Bool :=
  (c != '.') && (c != '/')

/-- Replace of the anchored regex in ImageConverter.generateFileName: when
the name ends in a dot followed by a nonempty run of extension characters,
drop that run together with the dot; otherwise leave the name unchanged. -/
def stripExt (s : List Char) : List Char :=
  if s.reverse.takeWhile isExtChar ≠ [] ∧
      (s.reverse.drop (s.reverse.takeWhile isExtChar).length).headD ' ' = '.' then
    (s.reverse.drop (s.reverse.takeWhile isExtChar).length).tail.reverse
  else s

/-- ImageConverter.generateFileName: strip the final extension and append a
dot and the target format. -/
def generateFileName (originalName : List Char) (format : List Char) : List Char :=
  stripExt originalName ++ '.' :: format

/-- Names that carry a dot extension: some position holds a dot followed by
a nonempty run of extension characters reaching the end of the name. -/
def hasDotExtension (s : List Char) : Bool :=
  (List.range s.length).any fun i =>
    (s.getD i ' ' == '.') && !(s.drop (i + 1)).isEmpty && (s.drop (i + 1)).all isExtChar

/-- Base64 alphabet of the data URL payload produced by canvas.toDataURL. -/
def b64Alphabet : List Char :=
  "ABCDEFGHIJKLMNOPQRSTUVWXYZabcdefghijklmnopqrstuvwxyz0123456789+/".toList

/-- Character encoding a six-bit group. -/
def b64Char (n : Nat) : Char :=
  b64Alphabet.getD n 'A'

/-- Base64 encoding of a byte sequence, three bytes per four characters,
padded with equals signs, as in a canvas.toDataURL payload. -/
def base64Encode : List Nat → List Char
  | [] => []
  | [b1] => [b64Char (b1 / 4), b64Char (b1 % 4 * 16), '=', '=']
  | [b1, b2] => [b64Char (b1 / 4), b64Char (b1 % 4 * 16 + b2 / 16), b64Char (b2 % 16 * 4), '=']
  | b1 :: b2 :: b3 :: rest =>
    b64Char (b1 / 4) :: b64Char (b1 % 4 * 16 + b2 / 16) ::
      b64Char (b2 % 16 * 4 + b3 / 64) :: b64Char (b3 % 64) :: base64Encode rest

/-- JavaScript String.prototype.split at commas. -/
def splitOnComma : List Char → List (List Char)
  | [] => [[]]
  | c :: rest =>
    if c = ',' then [] :: splitOnComma rest
    else
      match splitOnComma rest with
      | [] => [[c]]
      | g :: gs => (c :: g) :: gs

/-- JavaScript String.prototype.endsWith. -/
def listEndsWith (s sfx : List Char) : Bool :=
  sfx.isSuffixOf s

/-- Padding discount of ImageConverter.getDataUrlSize: two for a trailing
double equals sign, one for a single trailing equals sign. -/
def padOf (base64 : List Char) : Nat :=
  if listEndsWith base64 ['=', '='] then 2
  else if listEndsWith base64 ['='] then 1
  else 0

/-- ImageConverter.getDataUrlSize: take the payload after the first comma,
then floor(length * 3 / 4) minus the padding discount. -/
def getDataUrlSize (dataUrl : List Char) : Int :=
  ((((splitOnComma dataUrl).getD 1 []).length * 3 / 4 : Nat) : Int) -
    (padOf ((splitOnComma dataUrl).getD 1 []) : Int)

/-- Head of a data URL produced by canvas.toDataURL for WebP output,
everything before the comma. -/
def dataUrlHead : List Char :=
  "data:image/webp;base64".toList

/-- File value carried in a multipart form. -/
structure JsFile where
  name : List Char
  size : Nat
  bytes : List Nat
  deriving DecidableEq

/-- Multipart form field value: a file part or a string part. -/
inductive FormValue
  | fileVal (f : JsFile)
  | strVal (s : List Char)
  deriving DecidableEq

/-- Multipart form body as an ordered field list. -/
abbrev FormBody := List (List Char × FormValue)

/-- JSON values, as returned by Response.json(). -/
inductive Json
  | null
  | boolVal (b : Bool)
  | numVal (n : Int)
  | strVal (s : List Char)
  | arrVal (elems : List Json)
  | objVal (fields : List (List Char × Json))

/-- Result of a JavaScript property read: a value or undefined. -/
inductive JsValue
  | undef
  | val (j : Json)

/-- Failures of the remote conversion path: the thrown HTTP error, a JSON
parse failure, or the TypeError of a property read on null. -/
inductive ConvError
  | httpError (status : Nat)
  | parseError
  | typeError
  deriving DecidableEq

/-- HTTP response as seen by ImageConverter.convertViaServer: the status
code, and the parse of the body as JSON when the body is well formed. -/
structure HttpResponse where
  status : Nat
  jsonBody : Option Json

/-- fetch Response.ok: status in the 2xx range. -/
def respOk (r : HttpResponse) : Bool :=
  decide (200 ≤ r.status) && decide (r.status ≤ 299)

/-- JavaScript property access data.data on a parsed JSON value: throws a
TypeError on null, yields the field or undefined on an object, and yields
undefined on every other value. -/
def jsGetField (j : Json) (key : List Char) : Except ConvError JsValue :=
  match j with
  | Json.null => Except.error ConvError.typeError
  | Json.objVal fields =>
    match fields.lookup key with
    | some v => Except.ok (JsValue.val v)
    | none => Except.ok JsValue.undef
  | _ => Except.ok JsValue.undef

/-- Response handling of ImageConverter.convertViaServer: a non-2xx status
throws, a malformed body fails in Response.json(), and otherwise the data
member of the parsed body is returned without any validation. -/
def handleServerResponse (resp : HttpResponse) : Except ConvError JsValue :=
  if respOk resp then
    match resp.jsonBody with
    | none => Except.error ConvError.parseError
    | some j => jsGetField j "data".toList
  else Except.error (ConvError.httpError resp.status)

/-- Form body built by ImageConverter.convertViaServer: the file appended
under image and the format string appended under format, nothing else. -/
def remoteForm (f : JsFile) (fmt : List Char) : FormBody :=
  [("image".toList, FormValue.fileVal f), ("format".toList, FormValue.strVal fmt)]

/-- ImageConverter.convertViaServer run against a network oracle: the list
of requests issued (always the single POST of the built form) paired with
the outcome of handling the oracle's response. -/
def convertViaServer (f : JsFile) (fmt : List Char) (respond : FormBody → HttpResponse) :
    List FormBody × Except ConvError JsValue :=
  ([remoteForm f fmt], handleServerResponse (respond (remoteForm f fmt)))

/-- Sample file for concrete scenarios. -/
def testFile : JsFile :=
  { name := "photo.png".toList, size := 3, bytes := [1, 2, 3] }

/-- Network oracle answering 200 with an empty JSON object body. -/
def testRespondOk : FormBody → HttpResponse :=
  fun _ => { status := 200, jsonBody := some (Json.objVal []) }

/-- Network oracle answering 500 with no parseable body. -/
def testRespond500 : FormBody → HttpResponse :=
  fun _ => { status := 500, jsonBody := none }

/-- Outcome of one record's conversion promise in handleConvert. -/
inductive ConvOutcome
  | success
  | failure
  deriving DecidableEq

/-- Observable steps of ImageConverterApp.handleConvert: the early-return
alert, the per-record converting status, the per-record terminal updates,
and the batch-complete message. -/
inductive BatchEvent
  | alertNoFiles
  | converting (i : Nat)
  | resultShown (i : Nat)
  | statusFailed (i : Nat)
  | batchComplete
  deriving DecidableEq

/-- Terminal UI update of record i in handleConvert:
displayConversionResult on success, the Conversion failed status on
error (the catch block). -/
def terminalEvent (outcomes : List ConvOutcome) (i : Nat) : BatchEvent :=
  match outcomes.getD i ConvOutcome.failure with
  | ConvOutcome.success => BatchEvent.resultShown i
  | ConvOutcome.failure => BatchEvent.statusFailed i

/-- Resumptions of the per-record async callbacks of handleConvert, run in
the order given by the schedule: each emits its terminal update, then its
finally block increments the shared counter, and the counter reaching the
total resolves the batch promise, which shows the converted message. -/
def runCompletions (outcomes : List ConvOutcome) (total : Nat) :
    List Nat → Nat → List BatchEvent
  | [], _ => []
  | i :: rest, count =>
    terminalEvent outcomes i ::
      (if count + 1 = total then
        BatchEvent.batchComplete :: runCompletions outcomes total rest (count + 1)
      else runCompletions outcomes total rest (count + 1))

/-- ImageConverterApp.handleConvert: an empty selection is rejected with an
alert before any promise is created; otherwise every record is marked
converting in index order and then the scheduled completions run. -/
def handleConvert (outcomes : List ConvOutcome) (sched : List Nat) : List BatchEvent :=
  if outcomes.isEmpty then [BatchEvent.alertNoFiles]
  else
    (List.range outcomes.length).map BatchEvent.converting ++
      runCompletions outcomes outcomes.length sched 0

/-- Outcome of reading one file with FileReader in processFiles. -/
inductive ReadOutcome
  | success
  | failure
  deriving DecidableEq

/-- Observable steps of FileProcessor.processFiles: file item creation,
per-file status updates and the progress bar update. -/
inductive ReadEvent
  | addFileItem (i : Nat)
  | fileReadOk (i : Nat)
  | fileReadError (i : Nat)
  | progressUpdate (processed total : Nat)
  deriving DecidableEq

/-- Loop body of FileProcessor.processFiles: files are read sequentially; a
success records the file, updates its status, increments the counter and
updates progress; the first failure reports the error for its index and
rethrows, so the loop stops there. -/
def processFilesLoop (total : Nat) : List ReadOutcome → Nat → Nat → List ReadEvent × Bool
  | [], _, _ => ([], true)
  | o :: rest, i, count =>
    match o with
    | ReadOutcome.success =>
      (ReadEvent.addFileItem i :: ReadEvent.fileReadOk i ::
        ReadEvent.progressUpdate (count + 1) total ::
          (processFilesLoop total rest (i + 1) (count + 1)).1,
        (processFilesLoop total rest (i + 1) (count + 1)).2)
    | ReadOutcome.failure =>
      ([ReadEvent.addFileItem i, ReadEvent.fileReadError i], false)

/-- FileProcessor.processFiles: the emitted UI events and whether the call
resolved (false means the first read error was rethrown to the caller). -/
def processFiles (files : List ReadOutcome) : List ReadEvent × Bool :=
  processFilesLoop files.length files 0 0

theorem terminalEvent_ne_batchComplete (outcomes : List ConvOutcome) (i : Nat) :
    terminalEvent outcomes i ≠ BatchEvent.batchComplete := by
  unfold terminalEvent
  cases outcomes.getD i ConvOutcome.failure <;> simp

theorem terminalEvent_ne_converting (outcomes : List ConvOutcome) (i j : Nat) :
    terminalEvent outcomes i ≠ BatchEvent.converting j := by
  unfold terminalEvent
  cases outcomes.getD i ConvOutcome.failure <;> simp

theorem terminalEvent_inj (outcomes : List ConvOutcome) :
    Function.Injective (terminalEvent outcomes) := by
  intro a b h
  unfold terminalEvent at h
  cases ha : outcomes.getD a ConvOutcome.failure <;>
    cases hb : outcomes.getD b ConvOutcome.failure <;>
      rw [ha, hb] at h <;> simp_all

theorem count_map_zero {a : Type} {b : Type} [DecidableEq b] (f : a → b) (y : b) :
    ∀ l : List a, (∀ x ∈ l, f x ≠ y) → (l.map f).count y = 0 := by
  intro l h
  rw [List.count_eq_zero]
  intro hmem
  rcases List.mem_map.mp hmem with ⟨x, hx, hfx⟩
  exact h x hx hfx

theorem runCompletions_eq (outcomes : List ConvOutcome) (total : Nat) :
    ∀ (sched : List Nat) (count : Nat), count + sched.length = total → sched ≠ [] →
      runCompletions outcomes total sched count =
        sched.map (terminalEvent outcomes) ++ [BatchEvent.batchComplete]
  | [], _, _, hne => absurd rfl hne
  | [i], count, hlen, _ => by
    have h1 : count + 1 = total := by simpa using hlen
    rw [show runCompletions outcomes total [i] count =
      terminalEvent outcomes i ::
        (if count + 1 = total then
          BatchEvent.batchComplete :: runCompletions outcomes total [] (count + 1)
        else runCompletions outcomes total [] (count + 1)) from rfl]
    rw [if_pos h1]
    simp [runCompletions]
  | i :: j :: rest, count, hlen, _ => by
    have h1 : ¬(count + 1 = total) := by
      simp only [List.length_cons] at hlen
      omega
    have h2 := runCompletions_eq outcomes total (j :: rest) (count + 1)
      (by simp only [List.length_cons] at hlen ⊢; omega) (by simp)
    rw [show runCompletions outcomes total (i :: j :: rest) count =
      terminalEvent outcomes i ::
        (if count + 1 = total then
          BatchEvent.batchComplete :: runCompletions outcomes total (j :: rest) (count + 1)
        else runCompletions outcomes total (j :: rest) (count + 1)) from rfl]
    rw [if_neg h1, h2]
    simp

theorem handleConvert_eq (outcomes : List ConvOutcome) (sched : List Nat)
    (hne : outcomes ≠ []) (hlen : sched.length = outcomes.length) :
    handleConvert outcomes sched =
      (List.range outcomes.length).map BatchEvent.converting ++
        (sched.map (terminalEvent outcomes) ++ [BatchEvent.batchComplete]) := by
  have hE : outcomes.isEmpty = false := by
    cases outcomes with
    | nil => exact absurd rfl hne
    | cons a l => rfl
  have hsne : sched ≠ [] := by
    intro h
    rw [h] at hlen
    cases outcomes with
    | nil => exact hne rfl
    | cons a l => simp at hlen
  rw [handleConvert, hE]
  simp only [Bool.false_eq_true, if_false]
  rw [runCompletions_eq outcomes outcomes.length sched 0 (by omega) hsne]

/-- C1 counterexample: for the empty batch handleConvert returns early with
the no-files alert and the batch-complete signal never fires, so the claim
does not hold for N equal to zero. -/
theorem handleConvert_empty_no_signal :
    handleConvert [] [] = [BatchEvent.alertNoFiles] ∧
    (handleConvert [] []).count BatchEvent.batchComplete = 0 := by
  refine ⟨rfl, rfl⟩

/-- C1 (amended): for every nonempty batch, under any completion schedule
that completes each record exactly once, the batch-complete signal fires
exactly once, it is the last event of the run, and every record's terminal
update occurs exactly once before it; an empty batch is rejected upfront
and the signal never fires there. -/
theorem handleConvert_batch_complete_once (outcomes : List ConvOutcome) (sched : List Nat)
    (hne : outcomes ≠ []) (hperm : List.Perm sched (List.range outcomes.length)) :
    (handleConvert outcomes sched).count BatchEvent.batchComplete = 1 ∧
    (handleConvert outcomes sched).getLast? = some BatchEvent.batchComplete ∧
    (∀ i, i < outcomes.length →
      (handleConvert outcomes sched).count (terminalEvent outcomes i) = 1) := by
  have hlen : sched.length = outcomes.length := by simpa using hperm.length_eq
  have hHC := handleConvert_eq outcomes sched hne hlen
  refine ⟨?_, ?_, ?_⟩
  · rw [hHC, List.count_append, List.count_append]
    rw [count_map_zero BatchEvent.converting BatchEvent.batchComplete _
      (fun j _ => by simp)]
    rw [count_map_zero (terminalEvent outcomes) BatchEvent.batchComplete _
      (fun j _ => terminalEvent_ne_batchComplete outcomes j)]
    rfl
  · rw [hHC, ← List.append_assoc, List.getLast?_concat]
  · intro i hi
    rw [hHC, List.count_append, List.count_append]
    rw [count_map_zero BatchEvent.converting (terminalEvent outcomes i) _
      (fun j _ => fun hj => terminalEvent_ne_converting outcomes i j hj.symm)]
    rw [List.count_map_of_injective sched (terminalEvent outcomes) (terminalEvent_inj outcomes) i]
    rw [hperm.count_eq i]
    rw [List.count_eq_one_of_mem (List.nodup_range _) (List.mem_range.mpr hi)]
    have : List.count (terminalEvent outcomes i) [BatchEvent.batchComplete] = 0 := by
      rw [List.count_eq_zero]
      simp [(terminalEvent_ne_batchComplete outcomes i)]
    rw [this]

/-- Witness for C1: a two-record batch with one success and one failure,
completing in reverse order, fires batch-complete exactly once. -/
theorem handleConvert_batch_complete_once_witness :
    (handleConvert [ConvOutcome.success, ConvOutcome.failure] [1, 0]).count
      BatchEvent.batchComplete = 1 :=
  (handleConvert_batch_complete_once [ConvOutcome.success, ConvOutcome.failure] [1, 0]
    (by decide) (by decide)).1

/-- C6: under any completion schedule that completes each record exactly
once, every record receives exactly one terminal update determined solely
by its own outcome: a failed record gets exactly one failure status and no
result, a successful record gets exactly one displayed result and no
failure status; failures are caught per record and never remove or add
events of other records. -/
theorem handleConvert_failure_isolated (outcomes : List ConvOutcome) (sched : List Nat)
    (hperm : List.Perm sched (List.range outcomes.length)) :
    ∀ i, i < outcomes.length →
      ((handleConvert outcomes sched).count (BatchEvent.statusFailed i) =
        if outcomes.getD i ConvOutcome.failure = ConvOutcome.failure then 1 else 0) ∧
      ((handleConvert outcomes sched).count (BatchEvent.resultShown i) =
        if outcomes.getD i ConvOutcome.failure = ConvOutcome.failure then 0 else 1) := by
  intro i hi
  have hne : outcomes ≠ [] := by
    intro h
    rw [h] at hi
    simp at hi
  have hlen : sched.length = outcomes.length := by simpa using hperm.length_eq
  have hHC := handleConvert_eq outcomes sched hne hlen
  have hcnt : ∀ e : BatchEvent, (∀ j, e ≠ BatchEvent.converting j) →
      e ≠ BatchEvent.batchComplete →
      (handleConvert outcomes sched).count e = (sched.map (terminalEvent outcomes)).count e := by
    intro e hc hb
    rw [hHC, List.count_append, List.count_append]
    rw [count_map_zero BatchEvent.converting e _ (fun j _ => fun hj => hc j hj.symm)]
    have : List.count e [BatchEvent.batchComplete] = 0 := by
      rw [List.count_eq_zero]
      simp [hb]
    rw [this]
    omega
  constructor
  · rw [hcnt (BatchEvent.statusFailed i) (fun j => by simp) (by simp)]
    cases h : outcomes.getD i ConvOutcome.failure with
    | failure =>
      have he : BatchEvent.statusFailed i = terminalEvent outcomes i := by
        unfold terminalEvent
        rw [h]
      rw [he, List.count_map_of_injective sched (terminalEvent outcomes)
        (terminalEvent_inj outcomes) i, hperm.count_eq i,
        List.count_eq_one_of_mem (List.nodup_range _) (List.mem_range.mpr hi)]
      simp
    | success =>
      rw [count_map_zero (terminalEvent outcomes) (BatchEvent.statusFailed i) _ ?_]
      · simp
      · intro j _ hj
        unfold terminalEvent at hj
        cases hj2 : outcomes.getD j ConvOutcome.failure <;> rw [hj2] at hj <;> simp at hj
        all_goals simp_all
  · rw [hcnt (BatchEvent.resultShown i) (fun j => by simp) (by simp)]
    cases h : outcomes.getD i ConvOutcome.failure with
    | success =>
      have he : BatchEvent.resultShown i = terminalEvent outcomes i := by
        unfold terminalEvent
        rw [h]
      rw [he, List.count_map_of_injective sched (terminalEvent outcomes)
        (terminalEvent_inj outcomes) i, hperm.count_eq i,
        List.count_eq_one_of_mem (List.nodup_range _) (List.mem_range.mpr hi)]
      simp [h]
    | failure =>
      rw [count_map_zero (terminalEvent outcomes) (BatchEvent.resultShown i) _ ?_]
      · simp
      · intro j _ hj
        unfold terminalEvent at hj
        cases hj2 : outcomes.getD j ConvOutcome.failure <;> rw [hj2] at hj <;> simp at hj
        all_goals simp_all

/-- Witness for C6: in the mixed two-record batch the failed record gets
exactly one failure status. -/
theorem handleConvert_failure_isolated_witness :
    (handleConvert [ConvOutcome.success, ConvOutcome.failure] [0, 1]).count
      (BatchEvent.statusFailed 1) = 1 := by
  have h := (handleConvert_failure_isolated [ConvOutcome.success, ConvOutcome.failure] [0, 1]
    (by decide) 1 (by decide)).1
  simpa using h

end ImageConvert

namespace ImageConvert

theorem getD_pred (p : Char → Prop) :
    ∀ (l : List Char) (d : Char), (∀ c ∈ l, p c) → p d → ∀ n, p (l.getD n d)
  | [], d, _, hd, n => by simpa [List.getD_nil] using hd
  | c :: l, d, hl, _, 0 => by simpa using hl c (by simp)
  | c :: l, d, hl, hd, n + 1 => by
    simpa using getD_pred p l d (fun x hx => hl x (by simp [hx])) hd n

theorem getD_append_length :
    ∀ (a b : List Char) (d : Char), (a ++ b).getD a.length d = b.getD 0 d
  | [], _, _ => rfl
  | c :: a, b, d => by simpa using getD_append_length a b d

theorem takeWhile_append_all (p : Char → Bool) :
    ∀ (a b : List Char), (∀ c ∈ a, p c = true) →
      (a ++ b).takeWhile p = a ++ b.takeWhile p
  | [], _, _ => rfl
  | c :: a, b, h => by
    have hc : p c = true := h c (by simp)
    simp [List.takeWhile_cons, hc,
      takeWhile_append_all p a b (fun x hx => h x (by simp [hx]))]

theorem drop_length_takeWhile (p : Char → Bool) :
    ∀ l : List Char, l.drop (l.takeWhile p).length = l.dropWhile p
  | [] => rfl
  | c :: l => by
    by_cases hc : p c
    · simp [List.takeWhile_cons, List.dropWhile_cons, hc, drop_length_takeWhile p l]
    · simp [List.takeWhile_cons, List.dropWhile_cons, hc]

theorem stripExt_append_ext (stem ext : List Char) (hne : ext ≠ [])
    (hext : ∀ c ∈ ext, isExtChar c = true) :
    stripExt (stem ++ '.' :: ext) = stem := by
  have hrev : (stem ++ '.' :: ext).reverse = ext.reverse ++ '.' :: stem.reverse := by
    simp
  have htw : ((stem ++ '.' :: ext).reverse).takeWhile isExtChar = ext.reverse := by
    rw [hrev, takeWhile_append_all isExtChar ext.reverse ('.' :: stem.reverse)
      (fun c hc => hext c (List.mem_reverse.mp hc))]
    simp [List.takeWhile_cons, isExtChar]
  have hdrop : ((stem ++ '.' :: ext).reverse).drop
      (((stem ++ '.' :: ext).reverse).takeWhile isExtChar).length = '.' :: stem.reverse := by
    rw [htw, hrev]
    exact List.drop_left ext.reverse ('.' :: stem.reverse)
  have hcond : ((stem ++ '.' :: ext).reverse).takeWhile isExtChar ≠ [] ∧
      (((stem ++ '.' :: ext).reverse).drop
        (((stem ++ '.' :: ext).reverse).takeWhile isExtChar).length).headD ' ' = '.' := by
    constructor
    · rw [htw]
      simpa using hne
    · rw [hdrop]
      rfl
  unfold stripExt
  rw [if_pos hcond, hdrop]
  simp

theorem stripExt_no_ext (s : List Char) (h : hasDotExtension s = false) :
    stripExt s = s := by
  unfold stripExt
  split
  case isTrue hc =>
    exfalso
    obtain ⟨h1, h2⟩ := hc
    rw [drop_length_takeWhile] at h2
    have hall : ∀ c ∈ s.reverse.takeWhile isExtChar, isExtChar c = true :=
      fun c hcm => List.mem_takeWhile_imp hcm
    have hsplit : s.reverse = s.reverse.takeWhile isExtChar ++ s.reverse.dropWhile isExtChar :=
      (List.takeWhile_append_dropWhile isExtChar s.reverse).symm
    generalize ht : s.reverse.takeWhile isExtChar = t at h1 hall hsplit
    cases hd : s.reverse.dropWhile isExtChar with
    | nil =>
      rw [hd] at h2
      simp at h2
    | cons c rest =>
      rw [hd] at h2
      simp at h2
      subst h2
      rw [hd] at hsplit
      have hs : s = rest.reverse ++ '.' :: t.reverse := by
        have := congrArg List.reverse hsplit
        simpa using this
      have htne : t.reverse ≠ [] := by
        simpa using h1
      have hlen : rest.reverse.length < s.length := by
        rw [hs]
        simp
      have hgd : s.getD rest.reverse.length ' ' = '.' := by
        rw [hs, getD_append_length, List.getD_cons_zero]
      have hdrop2 : s.drop (rest.reverse.length + 1) = t.reverse := by
        rw [hs, show rest.reverse ++ '.' :: t.reverse =
          (rest.reverse ++ ['.']) ++ t.reverse by simp]
        rw [show rest.reverse.length + 1 = (rest.reverse ++ ['.']).length by simp]
        exact List.drop_left _ _
      have htrue : hasDotExtension s = true := by
        unfold hasDotExtension
        rw [List.any_eq_true]
        refine ⟨rest.reverse.length, List.mem_range.mpr hlen, ?_⟩
        rw [hgd, hdrop2]
        simp [htne]
        intro c hcm
        exact hall c hcm
      rw [htrue] at h
      simp at h
  case isFalse => rfl

/-- C2: strategy selection in ImageConverter.convertToFormat is a pure
function of the format and the local WebP capability flag: webp with the
capability goes to the local strategy, avif always goes to the remote
strategy, and webp without the capability goes to the remote strategy. -/
theorem convertToFormat_routing :
    convertToFormatStrategy "webp".toList true = Strategy.localBrowser ∧
    convertToFormatStrategy "avif".toList true = Strategy.remoteServer ∧
    convertToFormatStrategy "avif".toList false = Strategy.remoteServer ∧
    convertToFormatStrategy "webp".toList false = Strategy.remoteServer := by
  refine ⟨rfl, rfl, rfl, rfl⟩

/-- C8: for every name of the form stem.ext with a nonempty extension free
of dots and slashes, generateFileName replaces the extension with the
target format instead of appending to the full name. -/
theorem generateFileName_replaces_extension (stem ext fmt : List Char)
    (hne : ext ≠ []) (hext : ∀ c ∈ ext, isExtChar c = true) :
    generateFileName (stem ++ '.' :: ext) fmt = stem ++ '.' :: fmt := by
  rw [generateFileName, stripExt_append_ext stem ext hne hext]

/-- Witness for C8: the spec scenario, name photo.JPG converted to webp
yields photo.webp. -/
theorem generateFileName_replaces_extension_witness :
    generateFileName ("photo".toList ++ '.' :: "JPG".toList) "webp".toList =
      "photo".toList ++ '.' :: "webp".toList :=
  generateFileName_replaces_extension "photo".toList "JPG".toList "webp".toList
    (by decide) (by decide)

/-- C10: for every original name with no dot extension the generated name
is the full original name with a dot and the format appended, and only the
last dot segment is ever stripped: archive.tar.gz becomes
archive.tar.webp. -/
theorem generateFileName_no_extension (s fmt : List Char)
    (h : hasDotExtension s = false) :
    generateFileName s fmt = s ++ '.' :: fmt ∧
    generateFileName "archive.tar.gz".toList "webp".toList =
      "archive.tar.webp".toList := by
  refine ⟨?_, by decide⟩
  rw [generateFileName, stripExt_no_ext s h]

/-- Witness for C10: the extensionless name photo with format webp yields
photo.webp. -/
theorem generateFileName_no_extension_witness :
    generateFileName "photo".toList "webp".toList =
      "photo".toList ++ '.' :: "webp".toList :=
  (generateFileName_no_extension "photo".toList "webp".toList (by decide)).1

theorem jsToFixed2_pos (x : ℚ) (h : 0 < jsToFixed2 x) : 0 < x := by
  by_cases hx : x < 0
  · exfalso
    have hbr : jsToFixed2 x = -((Int.floor (-x * 100 + 1 / 2) : ℚ) / 100) := by
      rw [jsToFixed2, if_pos hx]
    have hfl : (0 : ℤ) ≤ Int.floor (-x * 100 + 1 / 2) := by
      rw [Int.le_floor]
      push_cast
      nlinarith
    have hq : (0 : ℚ) ≤ (Int.floor (-x * 100 + 1 / 2) : ℚ) := by exact_mod_cast hfl
    rw [hbr] at h
    nlinarith
  · rcases lt_or_eq_of_le (not_lt.mp hx) with hlt | heq
    · exact hlt
    · exfalso
      have hz : jsToFixed2 x = 0 := by
        rw [jsToFixed2, if_neg hx, ← heq]
        norm_num
      rw [hz] at h
      exact lt_irrefl 0 h

theorem jsToFixed2_neg (x : ℚ) (h : jsToFixed2 x < 0) : x < 0 := by
  by_cases hx : x < 0
  · exact hx
  · exfalso
    have hge : (0 : ℚ) ≤ x := not_lt.mp hx
    have hbr : jsToFixed2 x = (Int.floor (x * 100 + 1 / 2) : ℚ) / 100 := by
      rw [jsToFixed2, if_neg hx]
    have hfl : (0 : ℤ) ≤ Int.floor (x * 100 + 1 / 2) := by
      rw [Int.le_floor]
      push_cast
      nlinarith
    have hq : (0 : ℚ) ≤ (Int.floor (x * 100 + 1 / 2) : ℚ) := by exact_mod_cast hfl
    rw [hbr] at h
    nlinarith

/-- C3 counterexample: with originalSize 1000000 and convertedSize 999999
the converted file is strictly smaller, yet the rounded reduction
percentage is 0, so positivity of reductionPercentage is not equivalent to
convertedSize being smaller than originalSize. -/
theorem reductionPercentage_sign_counterexample :
    ¬(0 < reductionPercentage 1000000 999999 ↔ (999999 : ℚ) < 1000000) := by
  have hval : reductionPercentage 1000000 999999 = 0 := by
    rw [reductionPercentage, jsToFixed2, if_neg (by norm_num)]
    rw [show ((1000000 : ℚ) - 999999) / 1000000 * 100 * 100 + 1 / 2 = 51 / 100 by norm_num]
    rw [show Int.floor ((51 : ℚ) / 100) = 0 by
      rw [Int.floor_eq_zero_iff, Set.mem_Ico]
      constructor <;> norm_num]
    norm_num
  rw [hval]
  norm_num

/-- C3 (amended): reductionPercentage is the two-decimal rounding of
(original - converted) / original * 100 and its sign never points the
wrong way: a positive value implies the converted file is smaller and a
negative value implies it grew; rounding may collapse a tiny nonzero
reduction to zero, so the converse fails. -/
theorem reductionPercentage_sign (o c : ℚ) (ho : 0 < o) :
    reductionPercentage o c = jsToFixed2 ((o - c) / o * 100) ∧
    (0 < reductionPercentage o c → c < o) ∧
    (reductionPercentage o c < 0 → o < c) := by
  refine ⟨rfl, ?_, ?_⟩
  · intro h
    have hx : 0 < (o - c) / o * 100 := jsToFixed2_pos _ h
    rw [div_mul_eq_mul_div] at hx
    rcases div_pos_iff.mp hx with ⟨ha, _⟩ | ⟨_, hb⟩
    · nlinarith
    · exact absurd ho (by linarith)
  · intro h
    have hx : (o - c) / o * 100 < 0 := jsToFixed2_neg _ h
    rw [div_mul_eq_mul_div] at hx
    rcases div_neg_iff.mp hx with ⟨_, hb⟩ | ⟨ha, _⟩
    · exact absurd ho (by linarith)
    · nlinarith

/-- Witness for C3: at originalSize 100 and convertedSize 50 the reduction
percentage evaluates to a positive value and the amended sign property
yields that the converted size is below the original. -/
theorem reductionPercentage_sign_witness :
    0 < reductionPercentage 100 50 ∧ (50 : ℚ) < 100 := by
  have hpos : 0 < reductionPercentage 100 50 := by
    rw [reductionPercentage, jsToFixed2, if_neg (by norm_num)]
    norm_num
  exact ⟨hpos, (reductionPercentage_sign 100 50 (by norm_num)).2.1 hpos⟩

theorem b64Char_ne_eq_sign (n : Nat) : b64Char n ≠ '=' :=
  getD_pred (fun c => c ≠ '=') b64Alphabet 'A' (by decide) (by decide) n

theorem b64Char_ne_comma (n : Nat) : b64Char n ≠ ',' :=
  getD_pred (fun c => c ≠ ',') b64Alphabet 'A' (by decide) (by decide) n

theorem base64Encode_ne_comma :
    ∀ (bytes : List Nat) (c : Char), c ∈ base64Encode bytes → c ≠ ','
  | [], c, h => by simp [base64Encode] at h
  | [b1], c, h => by
    simp [base64Encode] at h
    rcases h with h | h | h
    · exact h ▸ b64Char_ne_comma _
    · exact h ▸ b64Char_ne_comma _
    · exact h ▸ (by decide)
  | [b1, b2], c, h => by
    simp [base64Encode] at h
    rcases h with h | h | h | h
    · exact h ▸ b64Char_ne_comma _
    · exact h ▸ b64Char_ne_comma _
    · exact h ▸ b64Char_ne_comma _
    · exact h ▸ (by decide)
  | b1 :: b2 :: b3 :: rest, c, h => by
    simp only [base64Encode, List.mem_cons] at h
    rcases h with h | h | h | h | h
    · exact h ▸ b64Char_ne_comma _
    · exact h ▸ b64Char_ne_comma _
    · exact h ▸ b64Char_ne_comma _
    · exact h ▸ b64Char_ne_comma _
    · exact base64Encode_ne_comma rest c h

theorem splitOnComma_no_comma :
    ∀ s : List Char, (∀ c ∈ s, c ≠ ',') → splitOnComma s = [s]
  | [], _ => rfl
  | c :: rest, h => by
    have hc : ¬(c = ',') := h c (by simp)
    rw [splitOnComma, if_neg hc, splitOnComma_no_comma rest (fun x hx => h x (by simp [hx]))]

theorem splitOnComma_append :
    ∀ (a b : List Char), (∀ c ∈ a, c ≠ ',') →
      splitOnComma (a ++ ',' :: b) = a :: splitOnComma b
  | [], b, _ => by
    rw [List.nil_append, splitOnComma, if_pos rfl]
  | c :: a, b, h => by
    have hc : ¬(c = ',') := h c (by simp)
    rw [List.cons_append, splitOnComma, if_neg hc,
      splitOnComma_append a b (fun x hx => h x (by simp [hx]))]

theorem isPrefixOf_append_of_le :
    ∀ (p l t : List Char), p.length ≤ l.length →
      List.isPrefixOf p (l ++ t) = List.isPrefixOf p l
  | [], l, t, _ => by simp [List.isPrefixOf]
  | a :: p, [], t, h => by simp at h
  | a :: p, b :: l, t, h => by
    simp only [List.cons_append, List.isPrefixOf, List.append_eq]
    rw [isPrefixOf_append_of_le p l t (by simpa using h)]

theorem listEndsWith_append (front r sfx : List Char) (h : sfx.length ≤ r.length) :
    listEndsWith (front ++ r) sfx = listEndsWith r sfx := by
  unfold listEndsWith List.isSuffixOf
  rw [List.reverse_append]
  exact isPrefixOf_append_of_le sfx.reverse r.reverse front.reverse (by simpa using h)

theorem pad_two (c1 c2 : Char) : padOf [c1, c2, '=', '='] = 2 := by
  have h : listEndsWith [c1, c2, '=', '='] ['=', '='] = true := by
    unfold listEndsWith List.isSuffixOf
    simp [List.isPrefixOf]
  rw [padOf, if_pos h]

theorem pad_one (c1 c2 c3 : Char) (h3 : c3 ≠ '=') : padOf [c1, c2, c3, '='] = 1 := by
  have h1 : listEndsWith [c1, c2, c3, '='] ['=', '='] = false := by
    unfold listEndsWith List.isSuffixOf
    simp [List.isPrefixOf]
    intro h
    exact absurd h.symm h3
  have h2 : listEndsWith [c1, c2, c3, '='] ['='] = true := by
    unfold listEndsWith List.isSuffixOf
    simp [List.isPrefixOf]
  rw [padOf, h1, if_neg (by simp), h2, if_pos rfl]

theorem pad_zero (c1 c2 c3 c4 : Char) (h4 : c4 ≠ '=') : padOf [c1, c2, c3, c4] = 0 := by
  have h1 : listEndsWith [c1, c2, c3, c4] ['=', '='] = false := by
    unfold listEndsWith List.isSuffixOf
    simp [List.isPrefixOf]
    intro h
    exact absurd h.symm h4
  have h2 : listEndsWith [c1, c2, c3, c4] ['='] = false := by
    unfold listEndsWith List.isSuffixOf
    simp [List.isPrefixOf]
    exact fun h => absurd h.symm h4
  rw [padOf, h1, if_neg (by simp), h2, if_neg (by simp)]

theorem pad_append (front r : List Char) (h : 2 ≤ r.length) :
    padOf (front ++ r) = padOf r := by
  rw [padOf, padOf, listEndsWith_append front r ['=', '='] (by simpa using h),
    listEndsWith_append front r ['='] (by simp; omega)]

theorem base64Encode_length :
    ∀ bytes : List Nat, (base64Encode bytes).length = 4 * ((bytes.length + 2) / 3)
  | [] => by simp [base64Encode]
  | [b1] => by simp [base64Encode]
  | [b1, b2] => by simp [base64Encode]
  | b1 :: b2 :: b3 :: rest => by
    simp only [base64Encode, List.length_cons, base64Encode_length rest]
    omega

theorem base64Encode_length_ge (bytes : List Nat) (h : bytes ≠ []) :
    4 ≤ (base64Encode bytes).length := by
  rw [base64Encode_length]
  cases bytes with
  | nil => exact absurd rfl h
  | cons b r =>
    simp only [List.length_cons]
    omega

theorem pad_base64 :
    ∀ bytes : List Nat, padOf (base64Encode bytes) =
      (if bytes.length % 3 = 1 then 2 else if bytes.length % 3 = 2 then 1 else 0)
  | [] => rfl
  | [b1] => by
    simpa [base64Encode] using pad_two (b64Char (b1 / 4)) (b64Char (b1 % 4 * 16))
  | [b1, b2] => by
    simpa [base64Encode] using
      pad_one (b64Char (b1 / 4)) (b64Char (b1 % 4 * 16 + b2 / 16))
        (b64Char (b2 % 16 * 4)) (b64Char_ne_eq_sign _)
  | b1 :: b2 :: b3 :: rest => by
    by_cases hr : rest = []
    · subst hr
      simpa [base64Encode] using
        pad_zero (b64Char (b1 / 4)) (b64Char (b1 % 4 * 16 + b2 / 16))
          (b64Char (b2 % 16 * 4 + b3 / 64)) (b64Char (b3 % 64)) (b64Char_ne_eq_sign _)
    · have h2 : 2 ≤ (base64Encode rest).length :=
        le_trans (by omega) (base64Encode_length_ge rest hr)
      have happ : base64Encode (b1 :: b2 :: b3 :: rest) =
          [b64Char (b1 / 4), b64Char (b1 % 4 * 16 + b2 / 16),
            b64Char (b2 % 16 * 4 + b3 / 64), b64Char (b3 % 64)] ++ base64Encode rest := by
        simp [base64Encode]
      rw [happ, pad_append _ _ h2, pad_base64 rest]
      simp only [List.length_cons]
      have hmod : (rest.length + 1 + 1 + 1) % 3 = rest.length % 3 := by omega
      simp only [hmod]

/-- C7: for every byte sequence, getDataUrlSize applied to the data URL
whose payload is the base64 encoding of those bytes returns exactly the
raw byte count, not the length of the textual base64 representation. -/
theorem getDataUrlSize_raw_bytes (bytes : List Nat) :
    getDataUrlSize (dataUrlHead ++ ',' :: base64Encode bytes) = bytes.length := by
  have hsplit : splitOnComma (dataUrlHead ++ ',' :: base64Encode bytes) =
      dataUrlHead :: splitOnComma (base64Encode bytes) :=
    splitOnComma_append dataUrlHead (base64Encode bytes) (by decide)
  have hone : splitOnComma (base64Encode bytes) = [base64Encode bytes] :=
    splitOnComma_no_comma (base64Encode bytes) (base64Encode_ne_comma bytes)
  unfold getDataUrlSize
  rw [hsplit, hone]
  simp only [List.getD_cons_succ, List.getD_cons_zero]
  rw [base64Encode_length, pad_base64]
  have h3 : bytes.length % 3 = 0 ∨ bytes.length % 3 = 1 ∨ bytes.length % 3 = 2 := by omega
  rcases h3 with h | h | h <;> simp only [h] <;> norm_num <;> omega

/-- C4 counterexample: the spec scenario asks a remote avif request carrying
resize width 100 and fit contain to produce form fields width and fit; the
form that convertViaServer actually issues for an avif request holds
exactly the image and format fields, so no width or fit field is ever
sent. -/
theorem convertViaServer_no_resize_fields :
    ((convertViaServer testFile "avif".toList testRespondOk).1.map
        (fun fb => fb.map Prod.fst)) = [["image".toList, "format".toList]] ∧
    "width".toList ∉ ["image".toList, "format".toList] ∧
    "fit".toList ∉ ["image".toList, "format".toList] := by
  refine ⟨rfl, by decide, by decide⟩

/-- C4 (amended): convertViaServer issues exactly one HTTP POST whose
multipart body holds the source file under image and the target format
under format and nothing else (resize parameters are never sent), and a
non-2xx response is a hard failure for that request with no retry. -/
theorem convertViaServer_single_post (f : JsFile) (fmt : List Char)
    (respond : FormBody → HttpResponse)
    (hfail : respOk (respond (remoteForm f fmt)) = false) :
    (convertViaServer f fmt respond).1 = [remoteForm f fmt] ∧
    remoteForm f fmt =
      [("image".toList, FormValue.fileVal f), ("format".toList, FormValue.strVal fmt)] ∧
    (convertViaServer f fmt respond).2 =
      Except.error (ConvError.httpError (respond (remoteForm f fmt)).status) := by
  refine ⟨rfl, rfl, ?_⟩
  show handleServerResponse (respond (remoteForm f fmt)) = _
  rw [handleServerResponse, if_neg (by simp [hfail])]

/-- Witness for C4: against an oracle that answers 500, the single request
fails with the HTTP error carrying status 500. -/
theorem convertViaServer_single_post_witness :
    (convertViaServer testFile "avif".toList testRespond500).2 =
      Except.error (ConvError.httpError 500) := by
  have h := convertViaServer_single_post testFile "avif".toList testRespond500 (by decide)
  exact h.2.2

/-- C9 counterexample: a 2xx response whose body is the well-formed JSON
value null does not resolve with the body's data field; the data read on
null throws a TypeError, so the request fails. -/
theorem convertViaServer_null_body_fails :
    handleServerResponse { status := 200, jsonBody := some Json.null } =
      Except.error ConvError.typeError := rfl

/-- C9 (amended): for every 2xx response whose body is well-formed JSON
other than null, the conversion resolves with the value of the body's data
member without any shape validation; in particular an object body with no
data field resolves successfully with an undefined result. -/
theorem convertViaServer_returns_data_unvalidated (r : HttpResponse) (j : Json)
    (hok : respOk r = true) (hbody : r.jsonBody = some j) (hnn : j ≠ Json.null) :
    (∃ v, handleServerResponse r = Except.ok v) ∧
    (∀ fields, j = Json.objVal fields → fields.lookup "data".toList = none →
      handleServerResponse r = Except.ok JsValue.undef) := by
  constructor
  · rw [handleServerResponse, if_pos hok, hbody]
    cases j with
    | null => exact absurd rfl hnn
    | boolVal b => exact ⟨JsValue.undef, rfl⟩
    | numVal n => exact ⟨JsValue.undef, rfl⟩
    | strVal s => exact ⟨JsValue.undef, rfl⟩
    | arrVal elems => exact ⟨JsValue.undef, rfl⟩
    | objVal fields =>
      cases hl : fields.lookup "data".toList with
      | none =>
        refine ⟨JsValue.undef, ?_⟩
        have hl2 := hl
        simp only [String.toList] at hl2 ⊢
        simp [jsGetField, hl2]
      | some v =>
        refine ⟨JsValue.val v, ?_⟩
        have hl2 := hl
        simp only [String.toList] at hl2 ⊢
        simp [jsGetField, hl2]
  · intro fields hj hlook
    subst hj
    rw [handleServerResponse, if_pos hok, hbody]
    have hl2 := hlook
    simp only [String.toList] at hl2 ⊢
    simp [jsGetField, hl2]

/-- Witness for C9: a 200 response whose body is the empty JSON object
resolves successfully with an undefined result. -/
theorem convertViaServer_returns_data_witness :
    handleServerResponse { status := 200, jsonBody := some (Json.objVal []) } =
      Except.ok JsValue.undef := by
  have h := convertViaServer_returns_data_unvalidated
    { status := 200, jsonBody := some (Json.objVal []) } (Json.objVal [])
    (by decide) rfl (by simp)
  exact h.2 [] rfl rfl

theorem processFilesLoop_failure (total : Nat) :
    ∀ (files : List ReadOutcome) (k i0 c0 : Nat),
      k < files.length →
      files.getD k ReadOutcome.success = ReadOutcome.failure →
      (∀ d, d < k → files.getD d ReadOutcome.failure = ReadOutcome.success) →
      (processFilesLoop total files i0 c0).2 = false ∧
      ReadEvent.fileReadError (i0 + k) ∈ (processFilesLoop total files i0 c0).1 ∧
      (∀ d, d < k → ReadEvent.fileReadOk (i0 + d) ∈ (processFilesLoop total files i0 c0).1) ∧
      (∀ j, i0 + k < j → ReadEvent.addFileItem j ∉ (processFilesLoop total files i0 c0).1)
  | [], k, i0, c0, hk, _, _ => absurd hk (by simp)
  | o :: rest, 0, i0, c0, hk, hfail, hpre => by
    have ho : o = ReadOutcome.failure := by simpa using hfail
    subst ho
    have hred : processFilesLoop total (ReadOutcome.failure :: rest) i0 c0 =
        ([ReadEvent.addFileItem i0, ReadEvent.fileReadError i0], false) := rfl
    refine ⟨rfl, by rw [hred]; simp, fun d hd => absurd hd (by omega), ?_⟩
    intro j hj hmem
    simp only [Nat.add_zero] at hj
    have : ReadEvent.addFileItem j ∈
        [ReadEvent.addFileItem i0, ReadEvent.fileReadError i0] := hmem
    simp at this
    omega
  | o :: rest, k + 1, i0, c0, hk, hfail, hpre => by
    have ho : o = ReadOutcome.success := by simpa using hpre 0 (by omega)
    subst ho
    have hk2 : k < rest.length := by simpa using hk
    have hfail2 : rest.getD k ReadOutcome.success = ReadOutcome.failure := by
      simpa using hfail
    have hpre2 : ∀ d, d < k → rest.getD d ReadOutcome.failure = ReadOutcome.success := by
      intro d hd
      simpa using hpre (d + 1) (by omega)
    have IH := processFilesLoop_failure total rest k (i0 + 1) (c0 + 1) hk2 hfail2 hpre2
    have hred : processFilesLoop total (ReadOutcome.success :: rest) i0 c0 =
        (ReadEvent.addFileItem i0 :: ReadEvent.fileReadOk i0 ::
          ReadEvent.progressUpdate (c0 + 1) total ::
            (processFilesLoop total rest (i0 + 1) (c0 + 1)).1,
          (processFilesLoop total rest (i0 + 1) (c0 + 1)).2) := rfl
    rw [hred]
    refine ⟨IH.1, ?_, ?_, ?_⟩
    · have harith : i0 + (k + 1) = (i0 + 1) + k := by omega
      rw [harith]
      exact List.mem_cons_of_mem _ (List.mem_cons_of_mem _ (List.mem_cons_of_mem _ IH.2.1))
    · intro d hd
      cases d with
      | zero =>
        simp only [Nat.add_zero]
        exact List.mem_cons_of_mem _ (List.mem_cons_self _ _)
      | succ e =>
        have harith : i0 + (e + 1) = (i0 + 1) + e := by omega
        rw [harith]
        exact List.mem_cons_of_mem _ (List.mem_cons_of_mem _
          (List.mem_cons_of_mem _ (IH.2.2.1 e (by omega))))
    · intro j hj hmem
      rcases List.mem_cons.mp hmem with h1 | hmem
      · have : j = i0 := by
          have := ReadEvent.addFileItem.inj h1
          omega
        omega
      rcases List.mem_cons.mp hmem with h1 | hmem
      · exact ReadEvent.noConfusion h1
      rcases List.mem_cons.mp hmem with h1 | hmem
      · exact ReadEvent.noConfusion h1
      · exact IH.2.2.2 j (by omega) hmem

/-- C5 counterexample: in a three-file batch where only the middle read
fails, the failing record is reported as an error and the call fails, but
the third file is never read at all — its item is never created and it
gets no read status — so the failure does abort the reads of the
remaining files. -/
theorem processFiles_abort_counterexample :
    (processFiles [ReadOutcome.success, ReadOutcome.failure, ReadOutcome.success]).2 = false ∧
    ReadEvent.fileReadError 1 ∈
      (processFiles [ReadOutcome.success, ReadOutcome.failure, ReadOutcome.success]).1 ∧
    ReadEvent.addFileItem 2 ∉
      (processFiles [ReadOutcome.success, ReadOutcome.failure, ReadOutcome.success]).1 ∧
    ReadEvent.fileReadOk 2 ∉
      (processFiles [ReadOutcome.success, ReadOutcome.failure, ReadOutcome.success]).1 := by
  refine ⟨rfl, by decide, by decide, by decide⟩

/-- C5 (amended): when the first read failure occurs at index k, record k is
marked failed and reported as the error for its index, every file before k
is read successfully, the overall processFiles call fails, and the reads
of all files after k are aborted: no event for any later index is ever
emitted. -/
theorem processFiles_first_failure (files : List ReadOutcome) (k : Nat)
    (hk : k < files.length)
    (hfail : files.getD k ReadOutcome.success = ReadOutcome.failure)
    (hpre : ∀ d, d < k → files.getD d ReadOutcome.failure = ReadOutcome.success) :
    (processFiles files).2 = false ∧
    ReadEvent.fileReadError k ∈ (processFiles files).1 ∧
    (∀ d, d < k → ReadEvent.fileReadOk d ∈ (processFiles files).1) ∧
    (∀ j, k < j → ReadEvent.addFileItem j ∉ (processFiles files).1) := by
  have h := processFilesLoop_failure files.length files k 0 0 hk hfail hpre
  simpa using h

/-- Witness for C5: the two-file batch whose second read fails reports the
error for index one and the call fails. -/
theorem processFiles_first_failure_witness :
    ReadEvent.fileReadError 1 ∈ (processFiles [ReadOutcome.success, ReadOutcome.failure]).1 :=
  (processFiles_first_failure [ReadOutcome.success, ReadOutcome.failure] 1
    (by decide) (by decide)
    (fun d hd => by
      have hd0 : d = 0 := by omega
      subst hd0
      rfl)).2.1

end ImageConvert
